import Mathlib

/-!
Shallow embedding of `src/TunnelRouting/TunnelReduction.c`: the SAT reduction
of the tunnel-routing problem (formula builders `unicité`, `contrainte_depart_arrivee`,
`creer_contraintes_transitions`, `creer_contrainte_pile_bien_definie`,
`create_top_operation_constraint`, `create_stack_evolution_constraint`,
`create_simple_path_constraint`, the top-level `tn_reduction`) and the model
decoder `tn_get_path_from_model`.

Z3 ASTs are embedded as a deep `Formula` type whose constructors mirror the
engine operations the C code calls (`Z3_mk_and`, `Z3_mk_or`, `Z3_mk_not`,
`Z3_mk_implies`, `Z3_mk_eq`, `mk_bool_var`); a model is a valuation of the
named Boolean variables and `evalF` is the usual evaluation, so
`value_of_var_in_model` is evaluation of a variable formula.
-/

namespace TunnelReduction

/-- Decimal digits of `n`, least significant first, with explicit fuel so the
recursion is structural (the fuel `n` always suffices).  Mirrors what
`snprintf`'s `%d` produces, digit by digit. -/
def natDigitsAux : Nat → Nat → List Nat
  | _, 0 => []
  | 0, _ + 1 => []
  | fuel + 1, n + 1 => ((n + 1) % 10) :: natDigitsAux fuel ((n + 1) / 10)

/-- Decimal digits of `n`, least significant first (`[]` for `0`). -/
def natDigits (n : Nat) : List Nat := natDigitsAux n n

/-- Value of a least-significant-first decimal digit list. -/
def fromDigits : List Nat → Nat
  | [] => 0
  | d :: ds => d + 10 * fromDigits ds

/-- The decimal rendering of a natural number, as `%d` prints it. -/
def natStr (n : Nat) : String :=
  if n = 0 then "0" else ((natDigits n).reverse.map Nat.digitChar).asString

/-- The decimal rendering of an integer, as `%d` prints it. -/
def intStr : Int → String
  | Int.ofNat n => natStr n
  | Int.negSucc n => "-" ++ natStr (n + 1)

/-- Deep embedding of the Z3 Boolean ASTs the reduction builds: one
constructor per engine operation used by `TunnelReduction.c`. -/
inductive Formula : Type where
  | var : String → Formula
  | and : List Formula → Formula
  | or : List Formula → Formula
  | not : Formula → Formula
  | implies : Formula → Formula → Formula
  | eq : Formula → Formula → Formula

mutual

/-- Structural Boolean equality of formulas. -/
def Formula.beq : Formula → Formula → Bool
  | Formula.var a, Formula.var b => a == b
  | Formula.and l, Formula.and m => Formula.beqList l m
  | Formula.or l, Formula.or m => Formula.beqList l m
  | Formula.not a, Formula.not b => Formula.beq a b
  | Formula.implies a b, Formula.implies c d => Formula.beq a c && Formula.beq b d
  | Formula.eq a b, Formula.eq c d => Formula.beq a c && Formula.beq b d
  | _, _ => false

/-- Structural Boolean equality of formula lists. -/
def Formula.beqList : List Formula → List Formula → Bool
  | [], [] => true
  | a :: as, b :: bs => Formula.beq a b && Formula.beqList as bs
  | _, _ => false

end

mutual

theorem Formula.eq_of_beq : ∀ {a b : Formula}, Formula.beq a b = true → a = b
  | Formula.var a, Formula.var b, h => by
      simp only [Formula.beq, beq_iff_eq] at h; rw [h]
  | Formula.and l, Formula.and m, h =>
      congrArg Formula.and (Formula.eqList_of_beqList (by simpa [Formula.beq] using h))
  | Formula.or l, Formula.or m, h =>
      congrArg Formula.or (Formula.eqList_of_beqList (by simpa [Formula.beq] using h))
  | Formula.not a, Formula.not b, h =>
      congrArg Formula.not (Formula.eq_of_beq (by simpa [Formula.beq] using h))
  | Formula.implies a b, Formula.implies c d, h => by
      simp only [Formula.beq, Bool.and_eq_true] at h
      rw [Formula.eq_of_beq h.1, Formula.eq_of_beq h.2]
  | Formula.eq a b, Formula.eq c d, h => by
      simp only [Formula.beq, Bool.and_eq_true] at h
      rw [Formula.eq_of_beq h.1, Formula.eq_of_beq h.2]

theorem Formula.eqList_of_beqList :
    ∀ {l m : List Formula}, Formula.beqList l m = true → l = m
  | [], [], _ => rfl
  | a :: as, b :: bs, h => by
      simp only [Formula.beqList, Bool.and_eq_true] at h
      rw [Formula.eq_of_beq h.1, Formula.eqList_of_beqList h.2]

end

mutual

theorem Formula.beq_refl : ∀ a : Formula, Formula.beq a a = true
  | Formula.var a => by simp [Formula.beq]
  | Formula.and l => by simp [Formula.beq, Formula.beqList_refl l]
  | Formula.or l => by simp [Formula.beq, Formula.beqList_refl l]
  | Formula.not a => by simp [Formula.beq, Formula.beq_refl a]
  | Formula.implies a b => by simp [Formula.beq, Formula.beq_refl a, Formula.beq_refl b]
  | Formula.eq a b => by simp [Formula.beq, Formula.beq_refl a, Formula.beq_refl b]

theorem Formula.beqList_refl : ∀ l : List Formula, Formula.beqList l l = true
  | [] => rfl
  | a :: as => by simp [Formula.beqList, Formula.beq_refl a, Formula.beqList_refl as]

end

instance : DecidableEq Formula := fun a b =>
  if h : Formula.beq a b = true then Decidable.isTrue (Formula.eq_of_beq h)
  else Decidable.isFalse (fun e => h (e ▸ Formula.beq_refl a))

/-- A model: a truth value for every named Boolean variable. -/
def Model : Type := String → Bool

mutual

/-- Evaluation of a formula under a model (the semantics of the Z3
operations the C code uses). -/
def evalF (ρ : Model) : Formula → Bool
  | Formula.var s => ρ s
  | Formula.and l => evalAnd ρ l
  | Formula.or l => evalOr ρ l
  | Formula.not f => !(evalF ρ f)
  | Formula.implies a b => !(evalF ρ a) || evalF ρ b
  | Formula.eq a b => evalF ρ a == evalF ρ b

/-- Conjunction of a list of formulas (`Z3_mk_and` over an array). -/
def evalAnd (ρ : Model) : List Formula → Bool
  | [] => true
  | f :: fs => evalF ρ f && evalAnd ρ fs

/-- Disjunction of a list of formulas (`Z3_mk_or` over an array). -/
def evalOr (ρ : Model) : List Formula → Bool
  | [] => false
  | f :: fs => evalF ρ f || evalOr ρ fs

end

/-- The engine operation `value_of_var_in_model`: evaluate (a variable) under
the model. -/
def value_of_var_in_model (ρ : Model) (f : Formula) : Bool := evalF ρ f

/-- The name `snprintf(name, 60, "node %d,pos %d, height %d", node, pos,
stack_height)` builds (the buffer is never exhausted for 32-bit ints). -/
def tn_path_variable_name (node pos stack_height : Int) : String :=
  "node " ++ intStr node ++ ",pos " ++ intStr pos ++ ", height " ++ intStr stack_height

/-- The variable `x_{node,pos,stack_height}` of the reduction
(`TunnelReduction.c` line 15): the name is built by `snprintf` and interned
by `mk_bool_var`. -/
def tn_path_variable (node pos stack_height : Int) : Formula :=
  Formula.var (tn_path_variable_name node pos stack_height)

/-- The name `snprintf(name, 60, "4 at height %d on pos %d", height, pos)`
builds. -/
def tn_4_variable_name (pos height : Int) : String :=
  "4 at height " ++ intStr height ++ " on pos " ++ intStr pos

/-- The variable `y_{pos,height,4}` of the reduction (`TunnelReduction.c`
line 30). -/
def tn_4_variable (pos height : Int) : Formula :=
  Formula.var (tn_4_variable_name pos height)

/-- The name `snprintf(name, 60, "6 at height %d on pos %d", height, pos)`
builds. -/
def tn_6_variable_name (pos height : Int) : String :=
  "6 at height " ++ intStr height ++ " on pos " ++ intStr pos

/-- The variable `y_{pos,height,6}` of the reduction (`TunnelReduction.c`
line 45). -/
def tn_6_variable (pos height : Int) : Formula :=
  Formula.var (tn_6_variable_name pos height)

/-- The helper `get_stack_size` (`TunnelReduction.c` line 58): the array size
for the stack, `length / 2 + 1`. -/
def get_stack_size (length : Nat) : Nat := length / 2 + 1

/-- The ten node capabilities (`action_tag` of the network interface, in the
order the interface lists them; `transmit_4` is the first, i.e. tag 0). -/
inductive TnAction : Type where
  | transmit_4 | transmit_6
  | push_4_4 | push_4_6 | push_6_4 | push_6_6
  | pop_4_4 | pop_4_6 | pop_6_4 | pop_6_6
deriving DecidableEq

/-- The network interface the reduction consumes (`tn_get_num_nodes`,
`tn_get_initial`, `tn_get_final`, `tn_is_edge`, `tn_node_has_action`):
nodes are `0 .. num_nodes - 1`. -/
structure TunnelNetwork : Type where
  num_nodes : Nat
  initial : Nat
  final : Nat
  is_edge : Nat → Nat → Bool
  has_action : Nat → TnAction → Bool

/-- The step triple `tn_step_create(action, src, tgt)` builds. -/
structure TnStep : Type where
  action : TnAction
  src : Int
  tgt : Int
deriving DecidableEq

/-- Modelled from the spec: `uniqueFormula` lives in Z3Tools, which is not
under `src/`.  Spec section 4.2: "exactly one" is the standard pairwise
encoding, an at-least-one disjunction plus pairwise mutual exclusion; this
emits the disjunction of all the variables followed by `¬(vᵢ ∧ vⱼ)` for every
pair `i < j`, in scan order. -/
def pairwiseExclusions : List Formula → List Formula
  | [] => []
  | v :: vs => (vs.map fun w => Formula.not (Formula.and [v, w])) ++ pairwiseExclusions vs

/-- Modelled from the spec: the exactly-one helper `uniqueFormula(ctx, vars,
n)` of Z3Tools (not under `src/`), per spec sections 4.2 and 6: at-least-one
plus pairwise mutual exclusion. -/
def uniqueFormula (vars : List Formula) : Formula :=
  Formula.and (Formula.or vars :: pairwiseExclusions vars)

/-- Constraint `φ₁` (`TunnelReduction.c` line 74, `unicité`; the accent is
dropped from the Lean name): at every position `i ∈ [0, length]`, exactly one
of the `x` variables, enumerated node-major and height-minor, is true. -/
def unicite (reseau : TunnelNetwork) (length : Nat) : Formula :=
  Formula.and ((List.range (length + 1)).map fun i : Nat =>
    uniqueFormula ((List.range reseau.num_nodes).flatMap fun node : Nat =>
      (List.range (get_stack_size length)).map fun h : Nat =>
        tn_path_variable node i h))

/-- Constraint `φ₂` (`TunnelReduction.c` line 119): the path starts at the
initial node with height 0, ends at the final node with height 0, and cell 0
holds the bottom marker `4` at both endpoints. -/
def contrainte_depart_arrivee (reseau : TunnelNetwork) (length : Nat) : Formula :=
  Formula.and
    [tn_path_variable reseau.initial 0 0,
     tn_4_variable 0 0,
     tn_path_variable reseau.final length 0,
     tn_4_variable length 0]

/-- First loop nest of `creer_contraintes_transitions` (`TunnelReduction.c`
lines 175-197): forbid every transition whose height change is outside
`{-1, 0, +1}`. -/
def transitions_bloc1 (reseau : TunnelNetwork) (length : Nat) : List Formula :=
  (List.range length).flatMap fun i : Nat =>
    (List.range reseau.num_nodes).flatMap fun u : Nat =>
      (List.range (get_stack_size length)).flatMap fun h : Nat =>
        let at_u := tn_path_variable u i h
        (List.range reseau.num_nodes).flatMap fun v : Nat =>
          (List.range (get_stack_size length)).flatMap fun h_prime : Nat =>
            let delta : Int := (h_prime : Int) - (h : Int)
            if delta < -1 ∨ 1 < delta then
              [Formula.not (Formula.and [at_u, tn_path_variable v (i + 1) h_prime])]
            else []

/-- Second loop nest of `creer_contraintes_transitions` (`TunnelReduction.c`
lines 203-412): for each `(i, u, h)`, the per-target constraints (non-edge
bans, then for an edge the transmit / push / pop action preconditions), then
the successor-existence constraint when at least one successor state exists. -/
def transitions_bloc2 (reseau : TunnelNetwork) (length : Nat) : List Formula :=
  (List.range length).flatMap fun i : Nat =>
    (List.range reseau.num_nodes).flatMap fun u : Nat =>
      (List.range (get_stack_size length)).flatMap fun h : Nat =>
        let taille_max_pile := get_stack_size length
        let at_u := tn_path_variable u i h
        let per_v := (List.range reseau.num_nodes).flatMap fun v : Nat =>
          if !(reseau.is_edge u v) then
            [Formula.not (Formula.and [at_u, tn_path_variable v (i + 1) h])]
            ++ (if h + 1 < taille_max_pile then
                  [Formula.not (Formula.and [at_u, tn_path_variable v (i + 1) (h + 1)])]
                else [])
            ++ (if h > 0 then
                  [Formula.not (Formula.and [at_u, tn_path_variable v (i + 1) (h - 1)])]
                else [])
          else
            let trans_transition := Formula.and [at_u, tn_path_variable v (i + 1) h]
            let trans_conditions :=
              (if reseau.has_action u TnAction.transmit_4 then [tn_4_variable i h] else [])
              ++ (if reseau.has_action u TnAction.transmit_6 then [tn_6_variable i h] else [])
            let ctrans :=
              if trans_conditions.length > 0 then
                Formula.implies trans_transition (Formula.or trans_conditions)
              else Formula.not trans_transition
            let push_part :=
              if h + 1 < taille_max_pile then
                let push_transition := Formula.and [at_u, tn_path_variable v (i + 1) (h + 1)]
                let push_conditions :=
                  (if reseau.has_action u TnAction.push_4_4 then
                     [Formula.and [tn_4_variable i h, tn_4_variable (i + 1) (h + 1)]] else [])
                  ++ (if reseau.has_action u TnAction.push_4_6 then
                        [Formula.and [tn_4_variable i h, tn_6_variable (i + 1) (h + 1)]] else [])
                  ++ (if reseau.has_action u TnAction.push_6_4 then
                        [Formula.and [tn_6_variable i h, tn_4_variable (i + 1) (h + 1)]] else [])
                  ++ (if reseau.has_action u TnAction.push_6_6 then
                        [Formula.and [tn_6_variable i h, tn_6_variable (i + 1) (h + 1)]] else [])
                if push_conditions.length > 0 then
                  [Formula.implies push_transition (Formula.or push_conditions)]
                else [Formula.not push_transition]
              else []
            let pop_part :=
              if h > 0 then
                let pop_transition := Formula.and [at_u, tn_path_variable v (i + 1) (h - 1)]
                let pop_conditions :=
                  (if reseau.has_action u TnAction.pop_4_4 then
                     [Formula.and [tn_4_variable i h, tn_4_variable i (h - 1)]] else [])
                  ++ (if reseau.has_action u TnAction.pop_4_6 then
                        [Formula.and [tn_6_variable i h, tn_4_variable i (h - 1)]] else [])
                  ++ (if reseau.has_action u TnAction.pop_6_4 then
                        [Formula.and [tn_4_variable i h, tn_6_variable i (h - 1)]] else [])
                  ++ (if reseau.has_action u TnAction.pop_6_6 then
                        [Formula.and [tn_6_variable i h, tn_6_variable i (h - 1)]] else [])
                if pop_conditions.length > 0 then
                  [Formula.implies pop_transition (Formula.or pop_conditions)]
                else [Formula.not pop_transition]
              else []
            ctrans :: (push_part ++ pop_part)
        let successors := (List.range reseau.num_nodes).flatMap fun v : Nat =>
          if !(reseau.is_edge u v) then []
          else
            (if reseau.has_action u TnAction.transmit_4
                || reseau.has_action u TnAction.transmit_6 then
               [tn_path_variable v (i + 1) h] else [])
            ++ (if h + 1 < taille_max_pile
                  && (reseau.has_action u TnAction.push_4_4
                      || reseau.has_action u TnAction.push_4_6
                      || reseau.has_action u TnAction.push_6_4
                      || reseau.has_action u TnAction.push_6_6) then
                  [tn_path_variable v (i + 1) (h + 1)] else [])
            ++ (if h > 0
                  && (reseau.has_action u TnAction.pop_4_4
                      || reseau.has_action u TnAction.pop_4_6
                      || reseau.has_action u TnAction.pop_6_4
                      || reseau.has_action u TnAction.pop_6_6) then
                  [tn_path_variable v (i + 1) (h - 1)] else [])
        per_v ++ (if successors.length > 0 then
                    [Formula.implies at_u (Formula.or successors)] else [])

/-- Constraints `φ₃ + φ₇` (`TunnelReduction.c` line 156,
`creer_contraintes_transitions`): the conjunction of the two loop nests, in
emission order. -/
def creer_contraintes_transitions (reseau : TunnelNetwork) (length : Nat) : Formula :=
  Formula.and (transitions_bloc1 reseau length ++ transitions_bloc2 reseau length)

/-- Constraint `φ₄` (`TunnelReduction.c` line 433,
`creer_contrainte_pile_bien_definie`): if the height at position `i` is `h`,
then every cell `k ∈ [0, h]` (the bound is inclusive) holds exactly one of
`4` and `6`. -/
def creer_contrainte_pile_bien_definie (reseau : TunnelNetwork) (length : Nat) : Formula :=
  Formula.and ((List.range (length + 1)).flatMap fun i : Nat =>
    (List.range (get_stack_size length)).map fun h : Nat =>
      let variables_hauteur := (List.range reseau.num_nodes).flatMap fun node : Nat =>
        (List.range (get_stack_size length)).flatMap fun height : Nat =>
          if height = h then [tn_path_variable node i h] else []
      let pile_height_h := Formula.or variables_hauteur
      let contraintes_cellules := (List.range (h + 1)).map fun k : Nat =>
        Formula.or
          [Formula.and [tn_4_variable i k, Formula.not (tn_6_variable i k)],
           Formula.and [Formula.not (tn_4_variable i k), tn_6_variable i k]]
      Formula.implies pile_height_h (Formula.and contraintes_cellules))

/-- Constraint `φ₅` (`TunnelReduction.c` line 494,
`create_top_operation_constraint`): per legal transition and enabled action,
the top-of-stack readout implications.  Built but never conjoined by
`tn_reduction`. -/
def create_top_operation_constraint (network : TunnelNetwork) (length : Nat) : Formula :=
  Formula.and ((List.range length).flatMap fun i : Nat =>
    (List.range network.num_nodes).flatMap fun u : Nat =>
      (List.range network.num_nodes).flatMap fun v : Nat =>
        if !(network.is_edge u v) then []
        else
          (List.range (get_stack_size length)).flatMap fun h : Nat =>
            let stack_size := get_stack_size length
            let at_u := tn_path_variable u i h
            (if network.has_action u TnAction.transmit_4 then
               [Formula.implies (Formula.and [at_u, tn_path_variable v (i + 1) h])
                  (tn_4_variable i h)] else [])
            ++ (if network.has_action u TnAction.transmit_6 then
                  [Formula.implies (Formula.and [at_u, tn_path_variable v (i + 1) h])
                     (tn_6_variable i h)] else [])
            ++ (if h + 1 < stack_size then
                  let transition_push := Formula.and [at_u, tn_path_variable v (i + 1) (h + 1)]
                  (if network.has_action u TnAction.push_4_4 then
                     [Formula.implies transition_push
                        (Formula.and [tn_4_variable i h, tn_4_variable (i + 1) (h + 1)])]
                   else [])
                  ++ (if network.has_action u TnAction.push_4_6 then
                        [Formula.implies transition_push
                           (Formula.and [tn_4_variable i h, tn_6_variable (i + 1) (h + 1)])]
                      else [])
                  ++ (if network.has_action u TnAction.push_6_4 then
                        [Formula.implies transition_push
                           (Formula.and [tn_6_variable i h, tn_4_variable (i + 1) (h + 1)])]
                      else [])
                  ++ (if network.has_action u TnAction.push_6_6 then
                        [Formula.implies transition_push
                           (Formula.and [tn_6_variable i h, tn_6_variable (i + 1) (h + 1)])]
                      else [])
                else [])
            ++ (if h > 0 then
                  let transition_pop := Formula.and [at_u, tn_path_variable v (i + 1) (h - 1)]
                  (if network.has_action u TnAction.pop_4_4 then
                     [Formula.implies transition_pop
                        (Formula.and [tn_4_variable i h, tn_4_variable i (h - 1)])]
                   else [])
                  ++ (if network.has_action u TnAction.pop_4_6 then
                        [Formula.implies transition_pop
                           (Formula.and [tn_6_variable i h, tn_4_variable i (h - 1)])]
                      else [])
                  ++ (if network.has_action u TnAction.pop_6_4 then
                        [Formula.implies transition_pop
                           (Formula.and [tn_4_variable i h, tn_6_variable i (h - 1)])]
                      else [])
                  ++ (if network.has_action u TnAction.pop_6_6 then
                        [Formula.implies transition_pop
                           (Formula.and [tn_6_variable i h, tn_6_variable i (h - 1)])]
                      else [])
                else []))

/-- Constraint `φ₆` (`TunnelReduction.c` line 642,
`create_stack_evolution_constraint`): the cells beneath the site of change
keep their symbols across each legal transition. -/
def create_stack_evolution_constraint (network : TunnelNetwork) (length : Nat) : Formula :=
  Formula.and ((List.range length).flatMap fun i : Nat =>
    (List.range network.num_nodes).flatMap fun u : Nat =>
      (List.range network.num_nodes).flatMap fun v : Nat =>
        if !(network.is_edge u v) then []
        else
          (List.range (get_stack_size length)).flatMap fun h : Nat =>
            let stack_size := get_stack_size length
            let at_u := tn_path_variable u i h
            let preserve := fun (bound : Nat) =>
              (List.range bound).flatMap fun k : Nat =>
                [Formula.eq (tn_4_variable i k) (tn_4_variable (i + 1) k),
                 Formula.eq (tn_6_variable i k) (tn_6_variable (i + 1) k)]
            (if network.has_action u TnAction.transmit_4
                || network.has_action u TnAction.transmit_6 then
               [Formula.implies (Formula.and [at_u, tn_path_variable v (i + 1) h])
                  (Formula.and (preserve (h + 1)))] else [])
            ++ (if h + 1 < stack_size then
                  let transition := Formula.and [at_u, tn_path_variable v (i + 1) (h + 1)]
                  (if network.has_action u TnAction.push_4_4 then
                     [Formula.implies transition
                        (Formula.and (tn_4_variable (i + 1) (h + 1) :: preserve (h + 1)))]
                   else [])
                  ++ (if network.has_action u TnAction.push_4_6 then
                        [Formula.implies transition
                           (Formula.and (tn_6_variable (i + 1) (h + 1) :: preserve (h + 1)))]
                      else [])
                  ++ (if network.has_action u TnAction.push_6_4 then
                        [Formula.implies transition
                           (Formula.and (tn_4_variable (i + 1) (h + 1) :: preserve (h + 1)))]
                      else [])
                  ++ (if network.has_action u TnAction.push_6_6 then
                        [Formula.implies transition
                           (Formula.and (tn_6_variable (i + 1) (h + 1) :: preserve (h + 1)))]
                      else [])
                else [])
            ++ (if h > 0
                  && (network.has_action u TnAction.pop_4_4
                      || network.has_action u TnAction.pop_4_6
                      || network.has_action u TnAction.pop_6_4
                      || network.has_action u TnAction.pop_6_6) then
                  [Formula.implies (Formula.and [at_u, tn_path_variable v (i + 1) (h - 1)])
                     (Formula.and (preserve h))]
                else []))

/-- Constraint `φ₈` (`TunnelReduction.c` line 801,
`create_simple_path_constraint`): no `(node, height)` state is visited at two
distinct positions. -/
def create_simple_path_constraint (network : TunnelNetwork) (length : Nat) : Formula :=
  Formula.and ((List.range network.num_nodes).flatMap fun u : Nat =>
    (List.range (get_stack_size length)).flatMap fun h : Nat =>
      (List.range (length + 1)).flatMap fun i : Nat =>
        (List.range (length + 1)).flatMap fun j : Nat =>
          if i < j then
            [Formula.not (Formula.and [tn_path_variable u i h, tn_path_variable u j h])]
          else [])

/-- The top-level reducer `tn_reduction` (`TunnelReduction.c` line 834): the
conjunction `φ₁ ∧ φ₂ ∧ φ₃ ∧ φ₄ ∧ φ₆ ∧ φ₈` (no `φ₅`, no separate `φ₇`). -/
def tn_reduction (network : TunnelNetwork) (length : Nat) : Formula :=
  Formula.and
    [unicite network length,
     contrainte_depart_arrivee network length,
     creer_contraintes_transitions network length,
     creer_contrainte_pile_bien_definie network length,
     create_stack_evolution_constraint network length,
     create_simple_path_constraint network length]

/-- The state scan of `tn_get_path_from_model` for one position
(`TunnelReduction.c` lines 897-925): the node-major, height-minor double
loop reads the `x` variables at `pos` and at `pos + 1`, each hit overwriting
the previous one, starting from `(-1, -1)`.  The result is
`((src, src_height), (tgt, tgt_height))`. -/
def tn_scan (ρ : Model) (num_nodes stack_size pos : Nat) : (Int × Int) × (Int × Int) :=
  (List.range num_nodes).foldl (fun acc (n : Nat) =>
    (List.range stack_size).foldl (fun acc (height : Nat) =>
      let acc1 :=
        if value_of_var_in_model ρ (tn_path_variable n pos height) = true then
          (((n : Int), (height : Int)), acc.2)
        else acc
      if value_of_var_in_model ρ (tn_path_variable n (pos + 1) height) = true then
        (acc1.1, ((n : Int), (height : Int)))
      else acc1) acc)
    ((-1, -1), (-1, -1))

/-- The action selection of `tn_get_path_from_model` (`TunnelReduction.c`
lines 932-967): `int action = 0` (tag 0 is `transmit_4`), then the three
height-delta branches; only `tn_4_variable` is ever consulted. -/
def tn_decode_action (ρ : Model) (pos : Nat) (src_height tgt_height : Int) : TnAction :=
  if src_height = tgt_height then
    if value_of_var_in_model ρ (tn_4_variable pos src_height) = true then
      TnAction.transmit_4
    else TnAction.transmit_6
  else if src_height = tgt_height - 1 then
    if value_of_var_in_model ρ (tn_4_variable pos src_height) = true then
      if value_of_var_in_model ρ (tn_4_variable (pos + 1) tgt_height) = true then
        TnAction.push_4_4
      else TnAction.push_4_6
    else
      if value_of_var_in_model ρ (tn_4_variable (pos + 1) tgt_height) = true then
        TnAction.push_6_4
      else TnAction.push_6_6
  else if src_height = tgt_height + 1 then
    if value_of_var_in_model ρ (tn_4_variable pos src_height) = true then
      if value_of_var_in_model ρ (tn_4_variable (pos + 1) tgt_height) = true then
        TnAction.pop_4_4
      else TnAction.pop_6_4
    else
      if value_of_var_in_model ρ (tn_4_variable (pos + 1) tgt_height) = true then
        TnAction.pop_4_6
      else TnAction.pop_6_6
  else TnAction.transmit_4

/-- The model decoder `tn_get_path_from_model` (`TunnelReduction.c` line
890): for every `pos ∈ [0, bound)` scan the states at `pos` and `pos + 1`,
select the action from the height delta, and write the step
`tn_step_create(action, src, tgt)`. -/
def tn_get_path_from_model (ρ : Model) (network : TunnelNetwork) (bound : Nat) :
    List TnStep :=
  (List.range bound).map fun pos : Nat =>
    let s := tn_scan ρ network.num_nodes (get_stack_size bound) pos
    { action := tn_decode_action ρ pos s.1.2 s.2.2, src := s.1.1, tgt := s.2.1 }

/-- The conjunct list of a formula: a conjunction's immediate conjuncts. -/
def Formula.conjuncts : Formula → List Formula
  | Formula.and l => l
  | f => [f]

/-- Spec scenario 1 (trivial direct transmit): nodes `A = 0`, `B = 1`, the
single edge `A → B`, source `A`, sink `B`, `transmit_4` enabled at both
nodes. -/
def reseau_direct : TunnelNetwork where
  num_nodes := 2
  initial := 0
  final := 1
  is_edge := fun u v => u == 0 && v == 1
  has_action := fun _ a => a == TnAction.transmit_4

/-- Spec scenario 4 (symbol switch): nodes `A = 0`, `M = 1`, `B = 2`, edges
`A → M` and `M → B`, source `A`, sink `B`; `A` enables only `push_4_6`, `M`
enables only `pop_6_4`, `B` enables `transmit_4`. -/
def reseau_commutation : TunnelNetwork where
  num_nodes := 3
  initial := 0
  final := 2
  is_edge := fun u v => (u == 0 && v == 1) || (u == 1 && v == 2)
  has_action := fun n a =>
    (n == 0 && a == TnAction.push_4_6)
    || (n == 1 && a == TnAction.pop_6_4)
    || (n == 2 && a == TnAction.transmit_4)

theorem fromDigits_natDigitsAux :
    ∀ fuel n : Nat, n ≤ fuel → fromDigits (natDigitsAux fuel n) = n
  | fuel, 0, _ => by cases fuel <;> simp [natDigitsAux, fromDigits]
  | 0, n + 1, h => absurd h (by omega)
  | fuel + 1, n + 1, h => by
      have hlt : (n + 1) / 10 < n + 1 := Nat.div_lt_self (by omega) (by omega)
      have hle : (n + 1) / 10 ≤ fuel := by omega
      simp only [natDigitsAux, fromDigits, fromDigits_natDigitsAux fuel ((n + 1) / 10) hle]
      omega

theorem fromDigits_natDigits (n : Nat) : fromDigits (natDigits n) = n :=
  fromDigits_natDigitsAux n n le_rfl

theorem natDigits_inj {m n : Nat} (h : natDigits m = natDigits n) : m = n := by
  have := fromDigits_natDigits m
  rw [h, fromDigits_natDigits] at this
  exact this.symm

theorem natDigitsAux_lt :
    ∀ fuel n : Nat, ∀ d ∈ natDigitsAux fuel n, d < 10
  | _, 0 => by simp [natDigitsAux]
  | 0, _ + 1 => by simp [natDigitsAux]
  | fuel + 1, n + 1 => by
      simp only [natDigitsAux, List.mem_cons]
      rintro d (rfl | hd)
      · omega
      · exact natDigitsAux_lt fuel ((n + 1) / 10) d hd

theorem natDigits_lt (n : Nat) : ∀ d ∈ natDigits n, d < 10 :=
  natDigitsAux_lt n n

theorem digitChar_inj :
    ∀ d ∈ List.range 10, ∀ e ∈ List.range 10, Nat.digitChar d = Nat.digitChar e → d = e := by
  decide

theorem digitChar_isDigit : ∀ d ∈ List.range 10, (Nat.digitChar d).isDigit = true := by
  decide

theorem map_digitChar_inj :
    ∀ l₁ l₂ : List Nat, (∀ d ∈ l₁, d < 10) → (∀ d ∈ l₂, d < 10) →
      l₁.map Nat.digitChar = l₂.map Nat.digitChar → l₁ = l₂
  | [], [], _, _, _ => rfl
  | [], _ :: _, _, _, h => by simp at h
  | _ :: _, [], _, _, h => by simp at h
  | a :: as, b :: bs, h₁, h₂, h => by
      simp only [List.map_cons, List.cons.injEq] at h
      have ha := h₁ a (List.mem_cons_self a as)
      have hb := h₂ b (List.mem_cons_self b bs)
      have hab := digitChar_inj a (List.mem_range.mpr ha) b (List.mem_range.mpr hb) h.1
      rw [hab, map_digitChar_inj as bs (fun d hd => h₁ d (List.mem_cons_of_mem a hd))
        (fun d hd => h₂ d (List.mem_cons_of_mem b hd)) h.2]

theorem asString_inj {l m : List Char} (h : List.asString l = List.asString m) : l = m := by
  simpa [List.asString, String.ext_iff] using h

theorem natStr_zero_aux {n : Nat}
    (h : (natDigits n).reverse.map Nat.digitChar = ['0']) : n = 0 := by
  have hrev : (natDigits n).reverse = [0] := by
    match e : (natDigits n).reverse with
    | [] => rw [e] at h; simp at h
    | [d] =>
        rw [e] at h
        simp only [List.map_cons, List.map_nil, List.cons.injEq, and_true] at h
        have hd : d < 10 := natDigits_lt n d (by rw [← List.mem_reverse, e]; simp)
        have hd0 : d = 0 :=
          digitChar_inj d (List.mem_range.mpr hd) 0 (by decide) (by rw [h]; rfl)
        rw [hd0]
    | _ :: _ :: _ => rw [e] at h; simp at h
  have hdig : natDigits n = [0] := by
    have := congrArg List.reverse hrev
    simpa using this
  have h0 := fromDigits_natDigits n
  rw [hdig] at h0
  simpa [fromDigits] using h0.symm

theorem natStr_inj {m n : Nat} (h : natStr m = natStr n) : m = n := by
  by_cases hm : m = 0 <;> by_cases hn : n = 0
  · omega
  · subst hm
    rw [natStr, natStr, if_pos rfl, if_neg hn] at h
    have hd : (natDigits n).reverse.map Nat.digitChar = ['0'] := by
      have := congrArg String.data h
      simpa [List.asString] using this.symm
    exact absurd (natStr_zero_aux hd) hn
  · subst hn
    rw [natStr, natStr, if_neg hm, if_pos rfl] at h
    have hd : (natDigits m).reverse.map Nat.digitChar = ['0'] := by
      have := congrArg String.data h
      simpa [List.asString] using this
    exact absurd (natStr_zero_aux hd) hm
  · rw [natStr, natStr, if_neg hm, if_neg hn] at h
    have hl := asString_inj h
    have hrev := map_digitChar_inj (natDigits m).reverse (natDigits n).reverse
      (fun d hd => natDigits_lt m d (by simpa using hd))
      (fun d hd => natDigits_lt n d (by simpa using hd)) hl
    exact natDigits_inj (List.reverse_injective hrev)

/-- Every character of a `natStr` is a decimal digit. -/
theorem natStr_chars {n : Nat} : ∀ c ∈ (natStr n).data, c.isDigit = true := by
  by_cases hn : n = 0
  · subst hn
    intro c hc
    simp only [natStr, if_pos rfl] at hc
    have : c = '0' := by simpa using hc
    rw [this]; decide
  · intro c hc
    rw [natStr, if_neg hn] at hc
    simp only [List.asString] at hc
    have : c ∈ (natDigits n).reverse.map Nat.digitChar := hc
    obtain ⟨d, hd, rfl⟩ := List.mem_map.mp this
    exact digitChar_isDigit d (List.mem_range.mpr (natDigits_lt n d (by simpa using hd)))

/-- A `natStr` is never empty. -/
theorem natStr_ne_nil (n : Nat) : (natStr n).data ≠ [] := by
  by_cases hn : n = 0
  · subst hn; simp [natStr]
  · rw [natStr, if_neg hn]
    simp only [List.asString]
    intro h
    have : (natDigits n).reverse.map Nat.digitChar = [] := h
    have hdig : natDigits n = [] := by
      have := List.map_eq_nil_iff.mp this
      simpa using this
    have h0 := fromDigits_natDigits n
    rw [hdig] at h0
    exact hn (by simpa [fromDigits] using h0.symm)

/-- Every character of an `intStr` is a decimal digit or the minus sign. -/
theorem intStr_chars {i : Int} :
    ∀ c ∈ (intStr i).data, c.isDigit = true ∨ c = '-' := by
  cases i with
  | ofNat n => exact fun c hc => Or.inl (natStr_chars c hc)
  | negSucc n =>
      intro c hc
      simp only [intStr, String.data_append] at hc
      rcases List.mem_append.mp hc with h | h
      · right; simpa using h
      · exact Or.inl (natStr_chars c h)

theorem intStr_inj {i j : Int} (h : intStr i = intStr j) : i = j := by
  cases i with
  | ofNat m =>
      cases j with
      | ofNat n => exact congrArg Int.ofNat (natStr_inj h)
      | negSucc n =>
          exfalso
          have hd := congrArg String.data h
          simp only [intStr, String.data_append] at hd
          have hm : '-' ∈ (natStr m).data := by
            rw [hd]; exact List.mem_append.mpr (Or.inl (by decide))
          exact absurd (natStr_chars '-' hm) (by decide)
  | negSucc m =>
      cases j with
      | ofNat n =>
          exfalso
          have hd := congrArg String.data h
          simp only [intStr, String.data_append] at hd
          have hn : '-' ∈ (natStr n).data := by
            rw [← hd]; exact List.mem_append.mpr (Or.inl (by decide))
          exact absurd (natStr_chars '-' hn) (by decide)
      | negSucc n =>
          simp only [intStr] at h
          have hd := congrArg String.data h
          simp only [String.data_append] at hd
          have hmn : m + 1 = n + 1 :=
            natStr_inj (String.ext (List.append_cancel_left hd))
          exact congrArg Int.negSucc (by omega)

/-- Splitting at the first occurrence of a marker absent from both prefixes
is unambiguous. -/
theorem append_marker_inj {α : Type _} (m : α) :
    ∀ a b c d : List α, m ∉ a → m ∉ b → a ++ m :: c = b ++ m :: d → a = b ∧ c = d
  | [], [], _, _, _, _, h => ⟨rfl, by simpa using h⟩
  | [], x :: b, c, d, _, hb, h => by
      simp only [List.nil_append, List.cons_append, List.cons.injEq] at h
      exact absurd (List.mem_cons_self x b) (h.1 ▸ hb)
  | x :: a, [], c, d, ha, _, h => by
      simp only [List.nil_append, List.cons_append, List.cons.injEq] at h
      exact absurd (List.mem_cons_self x a) (h.1 ▸ ha)
  | x :: a, y :: b, c, d, ha, hb, h => by
      simp only [List.cons_append, List.cons.injEq] at h
      obtain ⟨rfl, h2⟩ := h
      have ih := append_marker_inj m a b c d
        (fun hm => ha (List.mem_cons_of_mem _ hm))
        (fun hm => hb (List.mem_cons_of_mem _ hm)) h2
      exact ⟨by rw [ih.1], ih.2⟩

theorem intStr_no_comma {i : Int} : ',' ∉ (intStr i).data := fun hm => by
  rcases intStr_chars ',' hm with h | h
  · exact absurd h (by decide)
  · exact absurd h (by decide)

theorem intStr_no_space {i : Int} : ' ' ∉ (intStr i).data := fun hm => by
  rcases intStr_chars ' ' hm with h | h
  · exact absurd h (by decide)
  · exact absurd h (by decide)

theorem tn_path_variable_name_inj {a b c a' b' c' : Int}
    (h : tn_path_variable_name a b c = tn_path_variable_name a' b' c') :
    a = a' ∧ b = b' ∧ c = c' := by
  have hd := congrArg String.data h
  simp only [tn_path_variable_name, String.data_append, List.append_assoc,
    List.cons_append, List.cons.injEq, eq_self_iff_true, true_and] at hd
  have h2 := append_marker_inj ',' _ _ _ _ intStr_no_comma intStr_no_comma hd
  have ha : a = a' := intStr_inj (String.ext h2.1)
  have h3 := h2.2
  simp only [List.cons.injEq, eq_self_iff_true, true_and] at h3
  have h4 := append_marker_inj ',' _ _ _ _ intStr_no_comma intStr_no_comma h3
  have hb : b = b' := intStr_inj (String.ext h4.1)
  have h5 := h4.2
  simp only [List.cons.injEq, eq_self_iff_true, true_and] at h5
  exact ⟨ha, hb, intStr_inj (String.ext h5)⟩

theorem tn_4_variable_name_inj {p h p' h' : Int}
    (e : tn_4_variable_name p h = tn_4_variable_name p' h') : p = p' ∧ h = h' := by
  have hd := congrArg String.data e
  simp only [tn_4_variable_name, String.data_append, List.append_assoc,
    List.cons_append, List.cons.injEq, eq_self_iff_true, true_and] at hd
  have h2 := append_marker_inj ' ' _ _ _ _ intStr_no_space intStr_no_space hd
  have hh : h = h' := intStr_inj (String.ext h2.1)
  have h3 := h2.2
  simp only [List.cons.injEq, eq_self_iff_true, true_and] at h3
  exact ⟨intStr_inj (String.ext h3), hh⟩

theorem tn_6_variable_name_inj {p h p' h' : Int}
    (e : tn_6_variable_name p h = tn_6_variable_name p' h') : p = p' ∧ h = h' := by
  have hd := congrArg String.data e
  simp only [tn_6_variable_name, String.data_append, List.append_assoc,
    List.cons_append, List.cons.injEq, eq_self_iff_true, true_and] at hd
  have h2 := append_marker_inj ' ' _ _ _ _ intStr_no_space intStr_no_space hd
  have hh : h = h' := intStr_inj (String.ext h2.1)
  have h3 := h2.2
  simp only [List.cons.injEq, eq_self_iff_true, true_and] at h3
  exact ⟨intStr_inj (String.ext h3), hh⟩

theorem tn_path_name_head {a b c : Int} :
    (tn_path_variable_name a b c).data.head? = some 'n' := by
  simp only [tn_path_variable_name, String.data_append]
  rfl

theorem tn_4_name_head {p h : Int} : (tn_4_variable_name p h).data.head? = some '4' := by
  simp only [tn_4_variable_name, String.data_append]
  rfl

theorem tn_6_name_head {p h : Int} : (tn_6_variable_name p h).data.head? = some '6' := by
  simp only [tn_6_variable_name, String.data_append]
  rfl

theorem tn_path_name_ne_4 {a b c p h : Int} :
    tn_path_variable_name a b c ≠ tn_4_variable_name p h := fun e => by
  have he : (tn_path_variable_name a b c).data.head? = (tn_4_variable_name p h).data.head? := by
    rw [e]
  rw [tn_path_name_head, tn_4_name_head] at he
  exact absurd he (by decide)

theorem tn_path_name_ne_6 {a b c p h : Int} :
    tn_path_variable_name a b c ≠ tn_6_variable_name p h := fun e => by
  have he : (tn_path_variable_name a b c).data.head? = (tn_6_variable_name p h).data.head? := by
    rw [e]
  rw [tn_path_name_head, tn_6_name_head] at he
  exact absurd he (by decide)

theorem tn_4_name_ne_6 {p h p' h' : Int} :
    tn_4_variable_name p h ≠ tn_6_variable_name p' h' := fun e => by
  have he : (tn_4_variable_name p h).data.head? = (tn_6_variable_name p' h').data.head? := by
    rw [e]
  rw [tn_4_name_head, tn_6_name_head] at he
  exact absurd he (by decide)

@[simp] theorem evalF_var {ρ : Model} {s : String} : evalF ρ (Formula.var s) = ρ s := rfl

@[simp] theorem evalF_and {ρ : Model} {l : List Formula} :
    evalF ρ (Formula.and l) = evalAnd ρ l := by rw [evalF]

@[simp] theorem evalF_or {ρ : Model} {l : List Formula} :
    evalF ρ (Formula.or l) = evalOr ρ l := by rw [evalF]

@[simp] theorem evalF_not {ρ : Model} {f : Formula} :
    evalF ρ (Formula.not f) = !(evalF ρ f) := by rw [evalF]

@[simp] theorem evalF_implies {ρ : Model} {a b : Formula} :
    evalF ρ (Formula.implies a b) = (!(evalF ρ a) || evalF ρ b) := by rw [evalF]

@[simp] theorem evalF_eq {ρ : Model} {a b : Formula} :
    evalF ρ (Formula.eq a b) = (evalF ρ a == evalF ρ b) := by rw [evalF]

theorem evalAnd_eq_true {ρ : Model} {l : List Formula} :
    evalAnd ρ l = true ↔ ∀ f ∈ l, evalF ρ f = true := by
  induction l with
  | nil => simp [evalAnd]
  | cons f fs ih => rw [evalAnd, Bool.and_eq_true, ih]; simp

theorem evalOr_eq_true {ρ : Model} {l : List Formula} :
    evalOr ρ l = true ↔ ∃ f ∈ l, evalF ρ f = true := by
  induction l with
  | nil => simp [evalOr]
  | cons f fs ih => rw [evalOr, Bool.or_eq_true, ih]; simp

theorem tn_path_variable_inj {a b c a' b' c' : Int}
    (h : tn_path_variable a b c = tn_path_variable a' b' c') :
    a = a' ∧ b = b' ∧ c = c' := by
  simp only [tn_path_variable, Formula.var.injEq] at h
  exact tn_path_variable_name_inj h

theorem tn_4_variable_inj {p h p' h' : Int}
    (e : tn_4_variable p h = tn_4_variable p' h') : p = p' ∧ h = h' := by
  simp only [tn_4_variable, Formula.var.injEq] at e
  exact tn_4_variable_name_inj e

theorem tn_6_variable_inj {p h p' h' : Int}
    (e : tn_6_variable p h = tn_6_variable p' h') : p = p' ∧ h = h' := by
  simp only [tn_6_variable, Formula.var.injEq] at e
  exact tn_6_variable_name_inj e

/-- C9: the three variable namers are deterministic (same tuple, same
variable) and collision-free: within each family the name determines the
tuple, and the three families never share a name (`x` names start with
`node`, the `y` names with the symbol `4` or `6`). -/
theorem C9_variable_namers :
    (∀ n p h : Int, tn_path_variable n p h = tn_path_variable n p h) ∧
    (∀ n p h n' p' h' : Int,
      tn_path_variable n p h = tn_path_variable n' p' h' ↔ n = n' ∧ p = p' ∧ h = h') ∧
    (∀ p h p' h' : Int, tn_4_variable p h = tn_4_variable p' h' ↔ p = p' ∧ h = h') ∧
    (∀ p h p' h' : Int, tn_6_variable p h = tn_6_variable p' h' ↔ p = p' ∧ h = h') ∧
    (∀ n p h p' h' : Int, (tn_path_variable n p h == tn_4_variable p' h') = false) ∧
    (∀ n p h p' h' : Int, (tn_path_variable n p h == tn_6_variable p' h') = false) ∧
    (∀ p h p' h' : Int, (tn_4_variable p h == tn_6_variable p' h') = false) := by
  refine ⟨fun _ _ _ => rfl, ?_, ?_, ?_, ?_, ?_, ?_⟩
  · intro n p h n' p' h'
    constructor
    · exact tn_path_variable_inj
    · rintro ⟨rfl, rfl, rfl⟩; rfl
  · intro p h p' h'
    constructor
    · exact tn_4_variable_inj
    · rintro ⟨rfl, rfl⟩; rfl
  · intro p h p' h'
    constructor
    · exact tn_6_variable_inj
    · rintro ⟨rfl, rfl⟩; rfl
  · intro n p h p' h'
    rw [beq_eq_false_iff_ne]
    simp only [tn_path_variable, tn_4_variable, ne_eq, Formula.var.injEq]
    exact tn_path_name_ne_4
  · intro n p h p' h'
    rw [beq_eq_false_iff_ne]
    simp only [tn_path_variable, tn_6_variable, ne_eq, Formula.var.injEq]
    exact tn_path_name_ne_6
  · intro p h p' h'
    rw [beq_eq_false_iff_ne]
    simp only [tn_4_variable, tn_6_variable, ne_eq, Formula.var.injEq]
    exact tn_4_name_ne_6

/-- C5: for every network and length the top-level reducer returns exactly
the six-way conjunction `φ₁ ∧ φ₂ ∧ φ₃ ∧ φ₄ ∧ φ₆ ∧ φ₈` of the family
builders; on the concrete direct-transmit instance the built (but unused)
`φ₅` of `create_top_operation_constraint` is not one of the conjuncts. -/
theorem C5_top_level_conjunction :
    (∀ (N : TunnelNetwork) (L : Nat), 1 ≤ L →
      tn_reduction N L = Formula.and
        [unicite N L, contrainte_depart_arrivee N L, creer_contraintes_transitions N L,
         creer_contrainte_pile_bien_definie N L, create_stack_evolution_constraint N L,
         create_simple_path_constraint N L] ∧
      (tn_reduction N L).conjuncts.length = 6) ∧
    ((create_top_operation_constraint reseau_direct 1
        ∈ (tn_reduction reseau_direct 1).conjuncts) ↔ False) := by
  refine ⟨fun N L _ => ⟨rfl, rfl⟩, ?_⟩
  simp only [iff_false]
  decide

/-- Closed instance of C5 for the concrete direct-transmit network. -/
theorem C5_top_level_conjunction_witness :
    1 ≤ 1 ∧
    (tn_reduction reseau_direct 1 = Formula.and
      [unicite reseau_direct 1, contrainte_depart_arrivee reseau_direct 1,
       creer_contraintes_transitions reseau_direct 1,
       creer_contrainte_pile_bien_definie reseau_direct 1,
       create_stack_evolution_constraint reseau_direct 1,
       create_simple_path_constraint reseau_direct 1] ∧
      (tn_reduction reseau_direct 1).conjuncts.length = 6) :=
  ⟨by decide, C5_top_level_conjunction.1 reseau_direct 1 (by decide)⟩

theorem mem_ite_singleton {α : Type _} {c : Prop} [Decidable c] {x y : α} :
    x ∈ (if c then [y] else []) ↔ c ∧ x = y := by
  by_cases h : c <;> simp [h]

/-- C6: the first loop nest of `φ₃` emits the ban
`¬(x[u, i, h] ∧ x[v, i+1, h'])` exactly for the in-range tuples whose height
delta has magnitude greater than 1, and each such ban is a conjunct of
`φ₃`. -/
theorem C6_height_delta_legality :
    ∀ (N : TunnelNetwork) (L i u v h h' : Nat),
      (Formula.not (Formula.and [tn_path_variable u i h, tn_path_variable v (i + 1) h'])
          ∈ transitions_bloc1 N L
        ↔ i < L ∧ u < N.num_nodes ∧ v < N.num_nodes ∧ h < get_stack_size L ∧
          h' < get_stack_size L ∧
          ((h' : Int) - (h : Int) < -1 ∨ 1 < (h' : Int) - (h : Int))) ∧
      (Formula.not (Formula.and [tn_path_variable u i h, tn_path_variable v (i + 1) h'])
          ∈ transitions_bloc1 N L →
        Formula.not (Formula.and [tn_path_variable u i h, tn_path_variable v (i + 1) h'])
          ∈ (creer_contraintes_transitions N L).conjuncts) := by
  intro N L i u v h h'
  refine ⟨⟨?_, ?_⟩, ?_⟩
  · intro hm
    simp only [transitions_bloc1, List.mem_flatMap, List.mem_range] at hm
    obtain ⟨i₁, hi₁, u₁, hu₁, h₁, hh₁, v₁, hv₁, h₁', hh₁', hcl⟩ := hm
    rw [mem_ite_singleton] at hcl
    obtain ⟨hc, he⟩ := hcl
    simp only [Formula.not.injEq, Formula.and.injEq, List.cons.injEq, and_true] at he
    obtain ⟨eu, ei, eh⟩ := tn_path_variable_inj he.1
    obtain ⟨ev, -, eh'⟩ := tn_path_variable_inj he.2
    have eu' : u = u₁ := by exact_mod_cast eu
    have ei' : i = i₁ := by exact_mod_cast ei
    have ehh : h = h₁ := by exact_mod_cast eh
    have evv : v = v₁ := by exact_mod_cast ev
    have ehh' : h' = h₁' := by exact_mod_cast eh'
    subst eu' ei' ehh evv ehh'
    exact ⟨hi₁, hu₁, hv₁, hh₁, hh₁', hc⟩
  · rintro ⟨hi, hu, hv, hh, hh', hc⟩
    simp only [transitions_bloc1, List.mem_flatMap, List.mem_range]
    exact ⟨i, hi, u, hu, h, hh, v, hv, h', hh',
      by rw [mem_ite_singleton]; exact ⟨hc, rfl⟩⟩
  · intro hm
    simp only [creer_contraintes_transitions, Formula.conjuncts]
    exact List.mem_append.mpr (Or.inl hm)

theorem eval_conjunct {ρ : Model} {l : List Formula} {f : Formula}
    (hval : evalF ρ (Formula.and l) = true) (hm : f ∈ l) : evalF ρ f = true := by
  rw [evalF_and] at hval
  exact evalAnd_eq_true.mp hval f hm

/-- C8: `φ₈` contains the clause `¬(x[n, i, h] ∧ x[n, j, h])` exactly for the
in-range tuples with `i < j`, and under any satisfying model the two
occurrences of one `(node, height)` state at distinct positions are mutually
exclusive. -/
theorem C8_simple_path :
    ∀ (N : TunnelNetwork) (L n h i j : Nat),
      (Formula.not (Formula.and [tn_path_variable n i h, tn_path_variable n j h])
          ∈ (create_simple_path_constraint N L).conjuncts
        ↔ n < N.num_nodes ∧ h < get_stack_size L ∧ i < j ∧ i ≤ L ∧ j ≤ L) ∧
      (∀ ρ : Model, evalF ρ (create_simple_path_constraint N L) = true →
        n < N.num_nodes → h < get_stack_size L → i < j → j ≤ L →
        ¬(evalF ρ (tn_path_variable n i h) = true ∧
          evalF ρ (tn_path_variable n j h) = true)) := by
  intro N L n h i j
  have hiff :
      Formula.not (Formula.and [tn_path_variable n i h, tn_path_variable n j h])
          ∈ (create_simple_path_constraint N L).conjuncts
        ↔ n < N.num_nodes ∧ h < get_stack_size L ∧ i < j ∧ i ≤ L ∧ j ≤ L := by
    constructor
    · intro hm
      simp only [create_simple_path_constraint, Formula.conjuncts, List.mem_flatMap,
        List.mem_range] at hm
      obtain ⟨u₁, hu₁, h₁, hh₁, i₁, hi₁, j₁, hj₁, hcl⟩ := hm
      rw [mem_ite_singleton] at hcl
      obtain ⟨hij, he⟩ := hcl
      simp only [Formula.not.injEq, Formula.and.injEq, List.cons.injEq, and_true] at he
      obtain ⟨en, ei, eh⟩ := tn_path_variable_inj he.1
      obtain ⟨-, ej, -⟩ := tn_path_variable_inj he.2
      have en' : n = u₁ := by exact_mod_cast en
      have ei' : i = i₁ := by exact_mod_cast ei
      have eh' : h = h₁ := by exact_mod_cast eh
      have ej' : j = j₁ := by exact_mod_cast ej
      subst en' ei' eh' ej'
      exact ⟨hu₁, hh₁, hij, by omega, by omega⟩
    · rintro ⟨hn, hh, hij, hiL, hjL⟩
      simp only [create_simple_path_constraint, Formula.conjuncts, List.mem_flatMap,
        List.mem_range]
      exact ⟨n, hn, h, hh, i, by omega, j, by omega,
        by rw [mem_ite_singleton]; exact ⟨hij, rfl⟩⟩
  refine ⟨hiff, ?_⟩
  intro ρ hval hn hh hij hjL
  have hmem := hiff.mpr ⟨hn, hh, hij, by omega, hjL⟩
  simp only [create_simple_path_constraint, Formula.conjuncts] at hmem
  rw [create_simple_path_constraint] at hval
  have hcl := eval_conjunct hval hmem
  rintro ⟨h1, h2⟩
  rw [evalF_not, evalF_and] at hcl
  simp [evalAnd, h1, h2] at hcl

theorem flatMap_nil_of_forall {α β : Type _} :
    ∀ (l : List α) (f : α → List β), (∀ a ∈ l, f a = []) → l.flatMap f = []
  | [], _, _ => rfl
  | a :: l, f, h => by
      simp only [List.flatMap_cons, h a (List.mem_cons_self a l), List.nil_append]
      exact flatMap_nil_of_forall l f (fun b hb => h b (List.mem_cons_of_mem a hb))

theorem flatMap_eq_map_of_singleton {α β : Type _} (g : α → β) :
    ∀ (l : List α) (f : α → List β), (∀ a ∈ l, f a = [g a]) → l.flatMap f = l.map g
  | [], _, _ => rfl
  | a :: l, f, h => by
      simp only [List.flatMap_cons, List.map_cons, h a (List.mem_cons_self a l),
        List.singleton_append]
      rw [flatMap_eq_map_of_singleton g l f (fun b hb => h b (List.mem_cons_of_mem a hb))]

theorem flatMap_range_ite_singleton {α : Type _} (x : α) :
    ∀ H h : Nat, h < H →
      (List.range H).flatMap (fun height => if height = h then [x] else []) = [x]
  | 0, h, hh => absurd hh (by omega)
  | H + 1, h, hh => by
      rw [List.range_succ, List.flatMap_append]
      by_cases e : h = H
      · subst e
        rw [flatMap_nil_of_forall (List.range h) _
          (fun a ha => if_neg (by have := List.mem_range.mp ha; omega))]
        simp
      · have hlt : h < H := by omega
        rw [flatMap_range_ite_singleton x H h hlt]
        have : H ≠ h := fun e' => e e'.symm
        simp [List.flatMap_cons, this]

/-- C7: for every in-range position `i` and height `h`, `φ₄` contains the
implication from "the height at `i` is `h`" (the disjunction of the
`x[·, i, h]`) to the conjunction, over every cell `k ∈ [0, h]` with the
bound inclusive, of the expanded exclusive-or of `y4[i, k]` and `y6[i, k]`;
semantically, any satisfying model with some node at `(i, h)` has exactly
one symbol in every cell `k ≤ h`, the cell at index `h` included. -/
theorem C7_wellformed_stack :
    ∀ (N : TunnelNetwork) (L i h : Nat), i ≤ L → h < get_stack_size L →
      (Formula.implies
          (Formula.or ((List.range N.num_nodes).map fun node : Nat =>
            tn_path_variable node i h))
          (Formula.and ((List.range (h + 1)).map fun k : Nat =>
            Formula.or
              [Formula.and [tn_4_variable i k, Formula.not (tn_6_variable i k)],
               Formula.and [Formula.not (tn_4_variable i k), tn_6_variable i k]]))
        ∈ (creer_contrainte_pile_bien_definie N L).conjuncts) ∧
      (∀ ρ : Model, evalF ρ (creer_contrainte_pile_bien_definie N L) = true →
        ∀ n : Nat, n < N.num_nodes → evalF ρ (tn_path_variable n i h) = true →
        ∀ k : Nat, k ≤ h →
          (evalF ρ (tn_4_variable i k) = true ∧ evalF ρ (tn_6_variable i k) = false) ∨
          (evalF ρ (tn_4_variable i k) = false ∧ evalF ρ (tn_6_variable i k) = true)) := by
  intro N L i h hiL hh
  have hant := flatMap_eq_map_of_singleton (fun node : Nat => tn_path_variable node i h)
    (List.range N.num_nodes)
    (fun node : Nat => (List.range (get_stack_size L)).flatMap fun height =>
      if height = h then [tn_path_variable node i h] else [])
    (fun node _ => flatMap_range_ite_singleton _ _ _ hh)
  have hmem :
      Formula.implies
          (Formula.or ((List.range N.num_nodes).map fun node : Nat =>
            tn_path_variable node i h))
          (Formula.and ((List.range (h + 1)).map fun k : Nat =>
            Formula.or
              [Formula.and [tn_4_variable i k, Formula.not (tn_6_variable i k)],
               Formula.and [Formula.not (tn_4_variable i k), tn_6_variable i k]]))
        ∈ (creer_contrainte_pile_bien_definie N L).conjuncts := by
    simp only [creer_contrainte_pile_bien_definie, Formula.conjuncts, List.mem_flatMap,
      List.mem_range, List.mem_map]
    exact ⟨i, by omega, h, hh, by rw [hant]⟩
  refine ⟨hmem, ?_⟩
  intro ρ hval n hn hx k hk
  simp only [creer_contrainte_pile_bien_definie, Formula.conjuncts] at hmem
  rw [creer_contrainte_pile_bien_definie] at hval
  have hcl := eval_conjunct hval hmem
  rw [evalF_implies] at hcl
  have hante : evalF ρ (Formula.or
      ((List.range N.num_nodes).map fun node : Nat => tn_path_variable node i h)) = true := by
    rw [evalF_or, evalOr_eq_true]
    exact ⟨tn_path_variable n i h, List.mem_map.mpr ⟨n, List.mem_range.mpr hn, rfl⟩, hx⟩
  rw [hante] at hcl
  simp only [Bool.not_true, Bool.false_or] at hcl
  have hcell := eval_conjunct hcl (List.mem_map.mpr ⟨k, List.mem_range.mpr (by omega), rfl⟩)
  cases he4 : evalF ρ (tn_4_variable i k) <;> cases he6 : evalF ρ (tn_6_variable i k)
  · rw [evalF_or] at hcell
    simp [evalOr, evalAnd, he4, he6] at hcell
  · exact Or.inr ⟨rfl, rfl⟩
  · exact Or.inl ⟨rfl, rfl⟩
  · rw [evalF_or] at hcell
    simp [evalOr, evalAnd, he4, he6] at hcell

/-- Closed instance of C7: the direct-transmit network, `L = 1`, position 0,
height 0. -/
theorem C7_wellformed_stack_witness :
    (0 : Nat) ≤ 1 ∧ 0 < get_stack_size 1 ∧
    (Formula.implies
        (Formula.or ((List.range reseau_direct.num_nodes).map fun node : Nat =>
          tn_path_variable node 0 0))
        (Formula.and ((List.range (0 + 1)).map fun k : Nat =>
          Formula.or
            [Formula.and [tn_4_variable 0 k, Formula.not (tn_6_variable 0 k)],
             Formula.and [Formula.not (tn_4_variable 0 k), tn_6_variable 0 k]]))
      ∈ (creer_contrainte_pile_bien_definie reseau_direct 1).conjuncts) :=
  ⟨by decide, by decide,
    (C7_wellformed_stack reseau_direct 1 0 0 (by decide) (by decide)).1⟩

/-- C2 counterexample: in the symbol-switch network (`M = 1` enables only
`pop_6_4`), for `i = 0`, the edge `1 → 2`, height `h = 1`, the pop
implication's only disjunct is `y4[0, 1] ∧ y6[0, 0]` — not the
`y6[0, 1] ∧ y4[0, 0]` the claim's reading of `pop_6_4` predicts. -/
theorem C2_pop_disjunct_counterexample :
    ((Formula.implies
        (Formula.and [tn_path_variable 1 0 1, tn_path_variable 2 1 0])
        (Formula.or [Formula.and [tn_6_variable 0 1, tn_4_variable 0 0]])
      ∈ (creer_contraintes_transitions reseau_commutation 2).conjuncts) ↔ False) ∧
    (Formula.implies
        (Formula.and [tn_path_variable 1 0 1, tn_path_variable 2 1 0])
        (Formula.or [Formula.and [tn_4_variable 0 1, tn_6_variable 0 0]])
      ∈ (creer_contraintes_transitions reseau_commutation 2).conjuncts) := by
  constructor
  · simp only [iff_false]
    decide
  · decide

/-- C2 as amended: in `φ₃`'s pop block every cell is read at the
pre-transition position `i`, but the symbol pattern of an enabled `pop_a_b`
is `y_b[i, h] ∧ y_a[i, h-1]` — `pop_4_6` contributes `y6[i, h] ∧ y4[i, h-1]`
and `pop_6_4` contributes `y4[i, h] ∧ y6[i, h-1]` (the two mixed variants
are swapped with respect to the claim; the symmetric `pop_4_4`/`pop_6_6`
agree with it). -/
theorem C2_pop_disjuncts_amended :
    ∀ (N : TunnelNetwork) (L i u v h : Nat), i < L → u < N.num_nodes → v < N.num_nodes →
      1 ≤ h → h < get_stack_size L → N.is_edge u v = true →
      (N.has_action u TnAction.pop_4_4 = true ∨ N.has_action u TnAction.pop_4_6 = true ∨
       N.has_action u TnAction.pop_6_4 = true ∨ N.has_action u TnAction.pop_6_6 = true) →
      ∃ conds : List Formula,
        Formula.implies
            (Formula.and [tn_path_variable u i h, tn_path_variable v (i + 1) (h - 1)])
            (Formula.or conds)
          ∈ (creer_contraintes_transitions N L).conjuncts ∧
        (N.has_action u TnAction.pop_4_4 = true →
          Formula.and [tn_4_variable i h, tn_4_variable i (h - 1)] ∈ conds) ∧
        (N.has_action u TnAction.pop_4_6 = true →
          Formula.and [tn_6_variable i h, tn_4_variable i (h - 1)] ∈ conds) ∧
        (N.has_action u TnAction.pop_6_4 = true →
          Formula.and [tn_4_variable i h, tn_6_variable i (h - 1)] ∈ conds) ∧
        (N.has_action u TnAction.pop_6_6 = true →
          Formula.and [tn_6_variable i h, tn_6_variable i (h - 1)] ∈ conds) ∧
        (∀ c ∈ conds,
          c = Formula.and [tn_4_variable i h, tn_4_variable i (h - 1)] ∨
          c = Formula.and [tn_6_variable i h, tn_4_variable i (h - 1)] ∨
          c = Formula.and [tn_4_variable i h, tn_6_variable i (h - 1)] ∨
          c = Formula.and [tn_6_variable i h, tn_6_variable i (h - 1)]) := by
  intro N L i u v h hi hu hv hh1 hhH hedge hpop
  refine ⟨(if N.has_action u TnAction.pop_4_4 = true then
        [Formula.and [tn_4_variable i h, tn_4_variable i (h - 1)]] else [])
      ++ (if N.has_action u TnAction.pop_4_6 = true then
        [Formula.and [tn_6_variable i h, tn_4_variable i (h - 1)]] else [])
      ++ (if N.has_action u TnAction.pop_6_4 = true then
        [Formula.and [tn_4_variable i h, tn_6_variable i (h - 1)]] else [])
      ++ (if N.has_action u TnAction.pop_6_6 = true then
        [Formula.and [tn_6_variable i h, tn_6_variable i (h - 1)]] else []),
    ?_, ?_, ?_, ?_, ?_, ?_⟩
  · simp only [creer_contraintes_transitions, Formula.conjuncts]
    refine List.mem_append.mpr (Or.inr ?_)
    simp only [transitions_bloc2, List.mem_flatMap, List.mem_range]
    refine ⟨i, hi, u, hu, h, hhH, ?_⟩
    refine List.mem_append.mpr (Or.inl ?_)
    simp only [List.mem_flatMap, List.mem_range]
    refine ⟨v, hv, ?_⟩
    rw [hedge]
    simp only [Bool.not_true, Bool.false_eq_true, if_false]
    refine List.mem_cons_of_mem _ (List.mem_append.mpr (Or.inr ?_))
    rw [if_pos (by omega : h > 0)]
    have hlen : ((if N.has_action u TnAction.pop_4_4 = true then
          [Formula.and [tn_4_variable i h, tn_4_variable i (h - 1)]] else [])
        ++ (if N.has_action u TnAction.pop_4_6 = true then
          [Formula.and [tn_6_variable i h, tn_4_variable i (h - 1)]] else [])
        ++ (if N.has_action u TnAction.pop_6_4 = true then
          [Formula.and [tn_4_variable i h, tn_6_variable i (h - 1)]] else [])
        ++ (if N.has_action u TnAction.pop_6_6 = true then
          [Formula.and [tn_6_variable i h, tn_6_variable i (h - 1)]] else [])).length > 0 := by
      rcases hpop with h4 | h4 | h4 | h4 <;> simp [h4]
    rw [if_pos hlen]
    exact List.mem_singleton.mpr rfl
  · intro ha
    exact List.mem_append.mpr (Or.inl (List.mem_append.mpr (Or.inl (List.mem_append.mpr
      (Or.inl (by rw [if_pos ha]; exact List.mem_singleton.mpr rfl))))))
  · intro ha
    exact List.mem_append.mpr (Or.inl (List.mem_append.mpr (Or.inl (List.mem_append.mpr
      (Or.inr (by rw [if_pos ha]; exact List.mem_singleton.mpr rfl))))))
  · intro ha
    exact List.mem_append.mpr (Or.inl (List.mem_append.mpr
      (Or.inr (by rw [if_pos ha]; exact List.mem_singleton.mpr rfl))))
  · intro ha
    exact List.mem_append.mpr
      (Or.inr (by rw [if_pos ha]; exact List.mem_singleton.mpr rfl))
  · intro c hc
    simp only [List.mem_append, mem_ite_singleton] at hc
    tauto

/-- Closed instance of the amended C2 at the symbol-switch network,
transition `(i, u, v, h) = (0, 1, 2, 1)`. -/
theorem C2_pop_disjuncts_amended_witness :
    ∃ conds : List Formula,
      Formula.implies
          (Formula.and [tn_path_variable 1 0 1, tn_path_variable 2 1 0])
          (Formula.or conds)
        ∈ (creer_contraintes_transitions reseau_commutation 2).conjuncts ∧
      (reseau_commutation.has_action 1 TnAction.pop_4_4 = true →
        Formula.and [tn_4_variable 0 1, tn_4_variable 0 0] ∈ conds) ∧
      (reseau_commutation.has_action 1 TnAction.pop_4_6 = true →
        Formula.and [tn_6_variable 0 1, tn_4_variable 0 0] ∈ conds) ∧
      (reseau_commutation.has_action 1 TnAction.pop_6_4 = true →
        Formula.and [tn_4_variable 0 1, tn_6_variable 0 0] ∈ conds) ∧
      (reseau_commutation.has_action 1 TnAction.pop_6_6 = true →
        Formula.and [tn_6_variable 0 1, tn_6_variable 0 0] ∈ conds) ∧
      (∀ c ∈ conds,
        c = Formula.and [tn_4_variable 0 1, tn_4_variable 0 0] ∨
        c = Formula.and [tn_6_variable 0 1, tn_4_variable 0 0] ∨
        c = Formula.and [tn_4_variable 0 1, tn_6_variable 0 0] ∨
        c = Formula.and [tn_6_variable 0 1, tn_6_variable 0 0]) :=
  C2_pop_disjuncts_amended reseau_commutation 2 0 1 2 1 (by decide) (by decide) (by decide)
    (by decide) (by decide) (by decide) (Or.inr (Or.inr (Or.inl (by decide))))

/-- Concrete model used against C3's reading of the decoder: position 0
carries node 0 at height 1, position 1 carries node 1 at height 0 (a `δ = -1`
transition); `y4[0, 1]` and `y6[0, 0]` are true and every other variable —
in particular `y4[1, 0]` — is false. -/
def rho_c3 : Model := fun s =>
  s == tn_path_variable_name 0 0 1 || s == tn_path_variable_name 1 1 0
    || s == tn_4_variable_name 0 1 || s == tn_6_variable_name 0 0

/-- C3 counterexample: under `rho_c3` the decoder's first transition has
height delta `-1` with `y4[0, h₀] = true` and `y6[0, h₀ - 1] = true`
(`h₀ = 1`), so the claim predicts `pop_4_6`; the decoder emits `pop_6_4`
(it reads the exposed symbol at the post-transition column `y4[1, 0]`,
which is false). -/
theorem C3_decoder_pop_counterexample :
    rho_c3 (tn_4_variable_name 0 1) = true ∧
    rho_c3 (tn_6_variable_name 0 0) = true ∧
    tn_scan rho_c3 reseau_commutation.num_nodes (get_stack_size 2) 0 = ((0, 1), (1, 0)) ∧
    tn_get_path_from_model rho_c3 reseau_commutation 2 =
      [{ action := TnAction.pop_6_4, src := 0, tgt := 1 },
       { action := TnAction.pop_6_6, src := 1, tgt := -1 }] ∧
    ((tn_get_path_from_model rho_c3 reseau_commutation 2).map TnStep.action
        == [TnAction.pop_4_6, TnAction.pop_6_6]) = false := by
  refine ⟨by decide, by decide, by decide, by decide, by decide⟩

/-- C3 as amended: on a `δ = -1` transition the decoder emits the pop action
determined by `y4` alone — the popped symbol is read at the pre-transition
cell `(pos, h_pos)` but the exposed symbol at the post-transition cell
`(pos + 1, h_pos - 1)`: it emits `pop_4_4`, `pop_6_4`, `pop_4_6`, `pop_6_6`
according to those two bits (so `pop_4_6` is emitted exactly when
`y4[pos, h_pos]` is false and `y4[pos+1, h_pos - 1]` is true). -/
theorem C3_decoder_pop_amended :
    ∀ (ρ : Model) (N : TunnelNetwork) (bound pos : Nat), pos < bound →
      (tn_scan ρ N.num_nodes (get_stack_size bound) pos).1.2 =
        (tn_scan ρ N.num_nodes (get_stack_size bound) pos).2.2 + 1 →
      ((tn_get_path_from_model ρ N bound).getD pos
          { action := TnAction.transmit_4, src := -1, tgt := -1 }).action =
        (if value_of_var_in_model ρ (tn_4_variable pos
              (tn_scan ρ N.num_nodes (get_stack_size bound) pos).1.2) = true then
           if value_of_var_in_model ρ (tn_4_variable (pos + 1)
                (tn_scan ρ N.num_nodes (get_stack_size bound) pos).2.2) = true then
             TnAction.pop_4_4
           else TnAction.pop_6_4
         else
           if value_of_var_in_model ρ (tn_4_variable (pos + 1)
                (tn_scan ρ N.num_nodes (get_stack_size bound) pos).2.2) = true then
             TnAction.pop_4_6
           else TnAction.pop_6_6) := by
  intro ρ N bound pos hpos hδ
  have hstep : (tn_get_path_from_model ρ N bound).getD pos
      { action := TnAction.transmit_4, src := -1, tgt := -1 } =
      { action := tn_decode_action ρ pos
          (tn_scan ρ N.num_nodes (get_stack_size bound) pos).1.2
          (tn_scan ρ N.num_nodes (get_stack_size bound) pos).2.2,
        src := (tn_scan ρ N.num_nodes (get_stack_size bound) pos).1.1,
        tgt := (tn_scan ρ N.num_nodes (get_stack_size bound) pos).2.1 } := by
    rw [tn_get_path_from_model, List.getD_eq_getElem?_getD, List.getElem?_map,
      List.getElem?_range hpos]
    rfl
  rw [hstep]
  have h1 : (tn_scan ρ N.num_nodes (get_stack_size bound) pos).1.2 ≠
      (tn_scan ρ N.num_nodes (get_stack_size bound) pos).2.2 := by omega
  have h2 : (tn_scan ρ N.num_nodes (get_stack_size bound) pos).1.2 ≠
      (tn_scan ρ N.num_nodes (get_stack_size bound) pos).2.2 - 1 := by omega
  simp only [tn_decode_action, if_neg h1, if_neg h2, if_pos hδ]

/-- Closed instance of the amended C3 at the concrete countermodel: the
first decoded action is `pop_6_4`. -/
theorem C3_decoder_pop_amended_witness :
    ((tn_get_path_from_model rho_c3 reseau_commutation 2).getD 0
        { action := TnAction.transmit_4, src := -1, tgt := -1 }).action =
      (if value_of_var_in_model rho_c3 (tn_4_variable 0
            (tn_scan rho_c3 reseau_commutation.num_nodes (get_stack_size 2) 0).1.2) = true then
         if value_of_var_in_model rho_c3 (tn_4_variable (0 + 1)
              (tn_scan rho_c3 reseau_commutation.num_nodes (get_stack_size 2) 0).2.2) = true then
           TnAction.pop_4_4
         else TnAction.pop_6_4
       else
         if value_of_var_in_model rho_c3 (tn_4_variable (0 + 1)
              (tn_scan rho_c3 reseau_commutation.num_nodes (get_stack_size 2) 0).2.2) = true then
           TnAction.pop_4_6
         else TnAction.pop_6_6) :=
  C3_decoder_pop_amended rho_c3 reseau_commutation 2 0 (by decide) (by decide)

/-- The node-major, height-minor order in which the decoder's scan loop
visits the `(node, height)` pairs. -/
def scanPairs (num_nodes stack_size : Nat) : List (Nat × Nat) :=
  (List.range num_nodes).flatMap fun n : Nat =>
    (List.range stack_size).map fun h : Nat => (n, h)

theorem foldl_flatMap {α β γ : Type _} (g : α → List β) (f : γ → β → γ) :
    ∀ (l : List α) (init : γ),
      (l.flatMap g).foldl f init = l.foldl (fun acc a => (g a).foldl f acc) init
  | [], _ => rfl
  | a :: l, init => by
      rw [List.flatMap_cons, List.foldl_append, List.foldl_cons]
      exact foldl_flatMap g f l ((g a).foldl f init)

theorem foldl_pair {α γ δ : Type _} (f : γ → α → γ) (g : δ → α → δ) :
    ∀ (l : List α) (ab : γ × δ),
      l.foldl (fun acc x => (f acc.1 x, g acc.2 x)) ab = (l.foldl f ab.1, l.foldl g ab.2)
  | [], _ => rfl
  | x :: l, ab => by
      rw [List.foldl_cons, List.foldl_cons, List.foldl_cons]
      exact foldl_pair f g l (f ab.1 x, g ab.2 x)

theorem foldl_choice_eq_getLastD {α β : Type _} (f : α → β) (p : α → Bool) :
    ∀ (l : List α) (init : β),
      l.foldl (fun acc x => if p x = true then f x else acc) init
        = ((l.filter p).map f).getLastD init
  | [], _ => rfl
  | x :: l, init => by
      rw [List.foldl_cons, List.filter_cons]
      by_cases hp : p x = true
      · rw [if_pos hp, if_pos hp, List.map_cons, List.getLastD_cons,
          foldl_choice_eq_getLastD f p l (f x)]
      · rw [if_neg hp, if_neg hp, foldl_choice_eq_getLastD f p l init]

/-- The decoder's interleaved double loop over `(node, height)` splits into
one last-hit scan of position `pos` and one of position `pos + 1`, both in
`scanPairs` order. -/
theorem tn_scan_eq (ρ : Model) (num stack pos : Nat) :
    tn_scan ρ num stack pos =
      ((scanPairs num stack).foldl (fun acc p =>
          if value_of_var_in_model ρ (tn_path_variable p.1 pos p.2) = true
          then ((p.1 : Int), (p.2 : Int)) else acc) (-1, -1),
       (scanPairs num stack).foldl (fun acc p =>
          if value_of_var_in_model ρ (tn_path_variable p.1 (pos + 1) p.2) = true
          then ((p.1 : Int), (p.2 : Int)) else acc) (-1, -1)) := by
  have hfun : (fun (acc : (Int × Int) × (Int × Int)) (n : Nat) =>
      (List.range stack).foldl (fun acc (height : Nat) =>
        let acc1 := if value_of_var_in_model ρ (tn_path_variable n pos height) = true
          then (((n : Int), (height : Int)), acc.2) else acc
        if value_of_var_in_model ρ (tn_path_variable n (pos + 1) height) = true
          then (acc1.1, ((n : Int), (height : Int))) else acc1) acc)
    = (fun (acc : (Int × Int) × (Int × Int)) (n : Nat) =>
      ((List.range stack).foldl (fun a (height : Nat) =>
          if value_of_var_in_model ρ (tn_path_variable n pos height) = true
          then ((n : Int), (height : Int)) else a) acc.1,
       (List.range stack).foldl (fun b (height : Nat) =>
          if value_of_var_in_model ρ (tn_path_variable n (pos + 1) height) = true
          then ((n : Int), (height : Int)) else b) acc.2)) := by
    funext acc n
    rw [← foldl_pair]
    congr 1
    funext a h
    by_cases c1 : value_of_var_in_model ρ (tn_path_variable n pos h) = true <;>
      by_cases c2 : value_of_var_in_model ρ (tn_path_variable n (pos + 1) h) = true <;>
      simp [c1, c2]
  rw [tn_scan, hfun, foldl_pair
    (fun a (n : Nat) => (List.range stack).foldl (fun a (height : Nat) =>
      if value_of_var_in_model ρ (tn_path_variable n pos height) = true
      then ((n : Int), (height : Int)) else a) a)
    (fun b (n : Nat) => (List.range stack).foldl (fun b (height : Nat) =>
      if value_of_var_in_model ρ (tn_path_variable n (pos + 1) height) = true
      then ((n : Int), (height : Int)) else b) b)]
  simp only [scanPairs, foldl_flatMap, List.foldl_map]

theorem mem_scanPairs {num stack : Nat} {p : Nat × Nat} (hp : p ∈ scanPairs num stack) :
    p.1 < num ∧ p.2 < stack := by
  simp only [scanPairs, List.mem_flatMap, List.mem_range, List.mem_map] at hp
  obtain ⟨n, hn, h, hh, rfl⟩ := hp
  exact ⟨hn, hh⟩

/-- C10: the decoder is total — it writes exactly `bound` steps for any
model.  Each position's scan visits the `(node, height)` pairs node-major
and height-minor and keeps the LAST pair whose `x` variable is true (the
last element of the filtered scan order, `(-1, -1)` when there is none);
when no `x` variable is true at `pos` and at `pos + 1`, the step is still
built: both recorded heights are `-1`, the equal-heights branch fires and a
transmit step with node indices `-1` is written. -/
theorem C10_decoder_malformed_model :
    ∀ (ρ : Model) (N : TunnelNetwork) (bound : Nat),
      (tn_get_path_from_model ρ N bound).length = bound ∧
      (∀ pos : Nat, tn_scan ρ N.num_nodes (get_stack_size bound) pos =
        ((((scanPairs N.num_nodes (get_stack_size bound)).filter fun p =>
            value_of_var_in_model ρ (tn_path_variable p.1 pos p.2)).map fun p =>
            ((p.1 : Int), (p.2 : Int))).getLastD (-1, -1),
         (((scanPairs N.num_nodes (get_stack_size bound)).filter fun p =>
            value_of_var_in_model ρ (tn_path_variable p.1 (pos + 1) p.2)).map fun p =>
            ((p.1 : Int), (p.2 : Int))).getLastD (-1, -1))) ∧
      (∀ pos : Nat, pos < bound →
        (∀ n h : Nat, n < N.num_nodes → h < get_stack_size bound →
          value_of_var_in_model ρ (tn_path_variable n pos h) = false) →
        (∀ n h : Nat, n < N.num_nodes → h < get_stack_size bound →
          value_of_var_in_model ρ (tn_path_variable n (pos + 1) h) = false) →
        (tn_get_path_from_model ρ N bound).getD pos
            { action := TnAction.transmit_4, src := -1, tgt := -1 } =
          { action := if value_of_var_in_model ρ (tn_4_variable pos (-1)) = true
                      then TnAction.transmit_4 else TnAction.transmit_6,
            src := -1, tgt := -1 }) := by
  intro ρ N bound
  refine ⟨by simp [tn_get_path_from_model], ?_, ?_⟩
  · intro pos
    rw [tn_scan_eq, foldl_choice_eq_getLastD, foldl_choice_eq_getLastD]
  · intro pos hpos hempty hempty'
    have hf : ((scanPairs N.num_nodes (get_stack_size bound)).filter fun p =>
        value_of_var_in_model ρ (tn_path_variable p.1 pos p.2)) = [] := by
      rw [List.filter_eq_nil_iff]
      intro p hp
      obtain ⟨h1, h2⟩ := mem_scanPairs hp
      simp [hempty p.1 p.2 h1 h2]
    have hf' : ((scanPairs N.num_nodes (get_stack_size bound)).filter fun p =>
        value_of_var_in_model ρ (tn_path_variable p.1 (pos + 1) p.2)) = [] := by
      rw [List.filter_eq_nil_iff]
      intro p hp
      obtain ⟨h1, h2⟩ := mem_scanPairs hp
      simp [hempty' p.1 p.2 h1 h2]
    have hscan : tn_scan ρ N.num_nodes (get_stack_size bound) pos = ((-1, -1), (-1, -1)) := by
      rw [tn_scan_eq, foldl_choice_eq_getLastD, foldl_choice_eq_getLastD, hf, hf']
      rfl
    have hstep : (tn_get_path_from_model ρ N bound).getD pos
        { action := TnAction.transmit_4, src := -1, tgt := -1 } =
        { action := tn_decode_action ρ pos
            (tn_scan ρ N.num_nodes (get_stack_size bound) pos).1.2
            (tn_scan ρ N.num_nodes (get_stack_size bound) pos).2.2,
          src := (tn_scan ρ N.num_nodes (get_stack_size bound) pos).1.1,
          tgt := (tn_scan ρ N.num_nodes (get_stack_size bound) pos).2.1 } := by
      rw [tn_get_path_from_model, List.getD_eq_getElem?_getD, List.getElem?_map,
        List.getElem?_range hpos]
      rfl
    rw [hstep, hscan]
    simp [tn_decode_action]

/-- Closed instance of C10 on the all-false model: the decoder still writes
two steps for the symbol-switch network at `bound = 2`. -/
theorem C10_decoder_malformed_model_witness :
    (tn_get_path_from_model (fun _ => false) reseau_commutation 2).length = 2 :=
  (C10_decoder_malformed_model (fun _ => false) reseau_commutation 2).1

@[simp] theorem evalF_tn_path {ρ : Model} {n p h : Int} :
    evalF ρ (tn_path_variable n p h) = ρ (tn_path_variable_name n p h) := rfl

@[simp] theorem evalF_tn_4 {ρ : Model} {p h : Int} :
    evalF ρ (tn_4_variable p h) = ρ (tn_4_variable_name p h) := rfl

@[simp] theorem evalF_tn_6 {ρ : Model} {p h : Int} :
    evalF ρ (tn_6_variable p h) = ρ (tn_6_variable_name p h) := rfl

theorem commutation_unsat_aux :
    ∀ ρ : Model, evalF ρ (tn_reduction reseau_commutation 2) = false := by
  intro ρ
  rw [Bool.eq_false_iff]
  intro h
  rw [tn_reduction] at h
  have h2 := eval_conjunct h (List.mem_cons_of_mem _ (List.mem_cons_self _ _))
  rw [contrainte_depart_arrivee] at h2
  have hx000 : ρ (tn_path_variable_name 0 0 0) = true :=
    eval_conjunct h2 (List.mem_cons_self _ _)
  have hx220 : ρ (tn_path_variable_name 2 2 0) = true :=
    eval_conjunct h2 (List.mem_cons_of_mem _ (List.mem_cons_of_mem _ (List.mem_cons_self _ _)))
  have h3 := eval_conjunct h (List.mem_cons_of_mem _ (List.mem_cons_of_mem _
    (List.mem_cons_self _ _)))
  rw [creer_contraintes_transitions] at h3
  have hsucc := eval_conjunct h3
    (show Formula.implies (tn_path_variable 0 0 0) (Formula.or [tn_path_variable 1 1 1])
        ∈ transitions_bloc1 reseau_commutation 2 ++ transitions_bloc2 reseau_commutation 2
      by decide)
  have hpush := eval_conjunct h3
    (show Formula.implies (Formula.and [tn_path_variable 0 0 0, tn_path_variable 1 1 1])
        (Formula.or [Formula.and [tn_4_variable 0 0, tn_6_variable 1 1]])
        ∈ transitions_bloc1 reseau_commutation 2 ++ transitions_bloc2 reseau_commutation 2
      by decide)
  have hpop := eval_conjunct h3
    (show Formula.implies (Formula.and [tn_path_variable 1 1 1, tn_path_variable 2 2 0])
        (Formula.or [Formula.and [tn_4_variable 1 1, tn_6_variable 1 0]])
        ∈ transitions_bloc1 reseau_commutation 2 ++ transitions_bloc2 reseau_commutation 2
      by decide)
  have h4 := eval_conjunct h (List.mem_cons_of_mem _ (List.mem_cons_of_mem _
    (List.mem_cons_of_mem _ (List.mem_cons_self _ _))))
  rw [creer_contrainte_pile_bien_definie] at h4
  have hphi4 := eval_conjunct h4
    (show Formula.implies
        (Formula.or [tn_path_variable 0 1 1, tn_path_variable 1 1 1, tn_path_variable 2 1 1])
        (Formula.and
          [Formula.or
            [Formula.and [tn_4_variable 1 0, Formula.not (tn_6_variable 1 0)],
             Formula.and [Formula.not (tn_4_variable 1 0), tn_6_variable 1 0]],
           Formula.or
            [Formula.and [tn_4_variable 1 1, Formula.not (tn_6_variable 1 1)],
             Formula.and [Formula.not (tn_4_variable 1 1), tn_6_variable 1 1]]])
        ∈ (List.range (2 + 1)).flatMap fun i : Nat =>
            (List.range (get_stack_size 2)).map fun h : Nat =>
              Formula.implies
                (Formula.or ((List.range reseau_commutation.num_nodes).flatMap
                  fun node : Nat =>
                    (List.range (get_stack_size 2)).flatMap fun height : Nat =>
                      if height = h then [tn_path_variable node i h] else []))
                (Formula.and ((List.range (h + 1)).map fun k : Nat =>
                  Formula.or
                    [Formula.and [tn_4_variable i k, Formula.not (tn_6_variable i k)],
                     Formula.and [Formula.not (tn_4_variable i k), tn_6_variable i k]]))
      by decide)
  simp only [evalF_implies, evalF_and, evalF_or, evalF_not, evalAnd, evalOr,
    evalF_tn_path, evalF_tn_4, evalF_tn_6, Bool.and_true, Bool.or_false]
    at hsucc hpush hpop hphi4
  rw [hx000, Bool.not_true, Bool.false_or] at hsucc
  rw [hx000, hsucc] at hpush
  simp only [Bool.and_self, Bool.not_true, Bool.false_or] at hpush
  rw [Bool.and_eq_true] at hpush
  have hy611 := hpush.2
  rw [hsucc, hx220] at hpop
  simp only [Bool.and_self, Bool.not_true, Bool.false_or] at hpop
  rw [Bool.and_eq_true] at hpop
  have hy411 := hpop.1
  rw [hsucc] at hphi4
  simp only [Bool.or_true, Bool.true_or, Bool.not_true, Bool.false_or] at hphi4
  rw [Bool.and_eq_true] at hphi4
  have hcell1 := hphi4.2
  rw [hy411, hy611] at hcell1
  simp at hcell1

/-- C1 as amended: on the symbol-switch network exactly as the spec states
it (`A` enables only `push_4_6`, `M` only `pop_6_4`, `B` `transmit_4`), the
formula `tn_reduction` builds for `L = 2` is unsatisfiable: the push writes
`6` into cell `(1, 1)` while `M`'s pop precondition demands `y4[1, 1]`,
which `φ₄` forbids.  (With the code's reading of the pop tags, the
scenario's pop must be named `pop_4_6` to make the instance satisfiable.) -/
theorem C1_symbol_switch_amended :
    ∀ ρ : Model, evalF ρ (tn_reduction reseau_commutation 2) = false :=
  commutation_unsat_aux

/-- C1 counterexample: the symbol-switch instance has no satisfying model at
all, so it is not SAT with the decoded path the claim states. -/
theorem C1_symbol_switch_counterexample :
    (∃ ρ : Model, evalF ρ (tn_reduction reseau_commutation 2) = true) ↔ False := by
  simp only [iff_false]
  rintro ⟨ρ, hρ⟩
  rw [commutation_unsat_aux ρ] at hρ
  exact Bool.false_ne_true hρ

/-- The intended model of the direct-transmit instance: the path sits at
`A = 0` then `B = 1`, both at height 0, with `4` in cell 0 at both
positions. -/
def rho_direct : Model := fun s =>
  s == tn_path_variable_name 0 0 0 || s == tn_path_variable_name 1 1 0
    || s == tn_4_variable_name 0 0 || s == tn_4_variable_name 1 0

/-- C4: the trivial direct-transmit instance is satisfiable (witnessed by
`rho_direct`) and every satisfying model decodes to the single step
`(transmit_4, A, B)`. -/
theorem C4_trivial_direct_transmit :
    evalF rho_direct (tn_reduction reseau_direct 1) = true ∧
    ∀ ρ : Model, evalF ρ (tn_reduction reseau_direct 1) = true →
      tn_get_path_from_model ρ reseau_direct 1 =
        [{ action := TnAction.transmit_4, src := 0, tgt := 1 }] := by
  constructor
  · decide
  · intro ρ h
    rw [tn_reduction] at h
    have h2 := eval_conjunct h (List.mem_cons_of_mem _ (List.mem_cons_self _ _))
    rw [contrainte_depart_arrivee] at h2
    have hx000 : ρ (tn_path_variable_name 0 0 0) = true :=
      eval_conjunct h2 (List.mem_cons_self _ _)
    have hy400 : ρ (tn_4_variable_name 0 0) = true :=
      eval_conjunct h2 (List.mem_cons_of_mem _ (List.mem_cons_self _ _))
    have hx110 : ρ (tn_path_variable_name 1 1 0) = true :=
      eval_conjunct h2 (List.mem_cons_of_mem _ (List.mem_cons_of_mem _
        (List.mem_cons_self _ _)))
    have h1 := eval_conjunct h (List.mem_cons_self _ _)
    rw [unicite] at h1
    have hu0 := eval_conjunct h1
      (show uniqueFormula [tn_path_variable 0 0 0, tn_path_variable 1 0 0]
          ∈ (List.range (1 + 1)).map fun i : Nat =>
            uniqueFormula ((List.range reseau_direct.num_nodes).flatMap fun node : Nat =>
              (List.range (get_stack_size 1)).map fun h : Nat =>
                tn_path_variable node i h)
        by decide)
    rw [uniqueFormula] at hu0
    have hexcl0 := eval_conjunct hu0
      (show Formula.not (Formula.and [tn_path_variable 0 0 0, tn_path_variable 1 0 0])
          ∈ Formula.or [tn_path_variable 0 0 0, tn_path_variable 1 0 0]
            :: pairwiseExclusions [tn_path_variable 0 0 0, tn_path_variable 1 0 0]
        by decide)
    have hu1 := eval_conjunct h1
      (show uniqueFormula [tn_path_variable 0 1 0, tn_path_variable 1 1 0]
          ∈ (List.range (1 + 1)).map fun i : Nat =>
            uniqueFormula ((List.range reseau_direct.num_nodes).flatMap fun node : Nat =>
              (List.range (get_stack_size 1)).map fun h : Nat =>
                tn_path_variable node i h)
        by decide)
    rw [uniqueFormula] at hu1
    have hexcl1 := eval_conjunct hu1
      (show Formula.not (Formula.and [tn_path_variable 0 1 0, tn_path_variable 1 1 0])
          ∈ Formula.or [tn_path_variable 0 1 0, tn_path_variable 1 1 0]
            :: pairwiseExclusions [tn_path_variable 0 1 0, tn_path_variable 1 1 0]
        by decide)
    simp only [evalF_not, evalF_and, evalAnd, evalF_tn_path, Bool.and_true,
      Bool.not_eq_true', Bool.and_eq_false_iff, hx000, hx110] at hexcl0 hexcl1
    have hx100 : ρ (tn_path_variable_name 1 0 0) = false := hexcl0.resolve_left (by simp)
    have hx010 : ρ (tn_path_variable_name 0 1 0) = false := hexcl1
    have hscan : tn_scan ρ reseau_direct.num_nodes (get_stack_size 1) 0 = ((0, 0), (1, 0)) := by
      rw [show reseau_direct.num_nodes = 2 from rfl]
      rw [tn_scan, show List.range 2 = [0, 1] from rfl,
        show List.range (get_stack_size 1) = [0] from rfl]
      simp only [List.foldl_cons, List.foldl_nil, value_of_var_in_model, evalF_tn_path,
        Nat.cast_zero, Nat.cast_one, Nat.cast_ofNat]
      simp [hx000, hx100, hx010, hx110]
    rw [tn_get_path_from_model, show List.range 1 = [0] from rfl]
    simp only [List.map_cons, List.map_nil]
    simp [hscan, tn_decode_action, value_of_var_in_model, hy400]

/-- Closed instance of C4: decoding the intended model yields the single
transmit step. -/
theorem C4_trivial_direct_transmit_witness :
    tn_get_path_from_model rho_direct reseau_direct 1 =
      [{ action := TnAction.transmit_4, src := 0, tgt := 1 }] :=
  C4_trivial_direct_transmit.2 rho_direct C4_trivial_direct_transmit.1

end TunnelReduction
